import Mathlib

/-!
# Verification of `bson/raw_bson_document.py` (`RawBSONDocument`)

A shallow embedding of the lazy raw-BSON document view.  The Python class
holds the raw byte buffer, a two-field snapshot of the codec options, and a
nullable inflated cache (`__inflated_doc`).  Mutation of the cache is made
explicit by state passing: every operation returns its result together with
the post-state of the view.

External collaborators that are not part of the source file are either
parameters (the single-element decoder `_element_to_dict`, the builtin `cmp`)
or modelled from the spec (the full-document decoder `BSON.decode`).
-/

namespace RawBson

/-- A byte buffer: Python `bytes`, one `Nat` per byte (values `< 256`). -/
abbrev Buffer := List Nat

/-- The two codec settings the view snapshots at construction
(`CodecOptions(tz_aware=..., uuid_representation=...)`). -/
structure CodecOptions where
  tz_aware : Bool
  uuid_representation : Nat
  deriving DecidableEq, Repr

/-- Python exceptions that can surface from the view's operations:
`InvalidBSON(msg)`, `KeyError(key)`, and `struct.error` (raised by
`_UNPACK_INT` when fewer than 4 bytes are available). -/
inductive PyErr where
  | invalidBSON (msg : String)
  | keyError (key : String)
  | structError
  deriving DecidableEq, Repr

/-- `_UNPACK_INT(raw[:4])`: the first 4 bytes as a signed little-endian
32-bit integer; `none` models `struct.error` when `len(raw) < 4`. -/
def unpackInt (raw : Buffer) : Option Int :=
  match raw with
  | b0 :: b1 :: b2 :: b3 :: _ =>
    let u : Nat := b0 % 256 + 256 * (b1 % 256) + 65536 * (b2 % 256) +
      16777216 * (b3 % 256)
    some (if u < 2147483648 then (u : Int) else (u : Int) - 4294967296)
  | _ => none

/-- Normalize a Python slice endpoint: negative indices count from the end,
then the result is clamped into `[0, len]`. -/
def pyBound (len : Nat) (i : Int) : Nat :=
  (max 0 (min (len : Int) (if i < 0 then i + len else i))).toNat

/-- Python slicing `l[start:stop]` with full negative-index and clamping
semantics (used by the terminator check `raw[obj_end:obj_size]`). -/
def pySlice (l : Buffer) (start stop : Int) : Buffer :=
  (l.take (pyBound l.length stop)).drop (pyBound l.length start)

/-- The single-element decoder `_element_to_dict(data, position, obj_size,
opts)`, an external collaborator: returns `(name, value, new_position)` or
raises a decoding error. `α` is the type of decoded values. -/
abbrev ElemDecoder (α : Type) :=
  Buffer → Int → Int → CodecOptions → Except PyErr (String × α × Int)

/-- The validation prologue of the `_items` generator body: unpack the
declared size, check `len(raw) < obj_size`, compute `obj_end = obj_size - 1`
and check `raw[obj_end:obj_size] != b"\x00"`.  Returns `(obj_size, obj_end)`
on success. -/
def headerCheck (raw : Buffer) : Except PyErr (Int × Int) :=
  match unpackInt raw with
  | none => .error .structError
  | some objSize =>
    if (raw.length : Int) < objSize then .error (.invalidBSON "invalid object size")
    else
      let objEnd := objSize - 1
      if pySlice raw objEnd objSize ≠ [0] then .error (.invalidBSON "bad eoo")
      else .ok (objSize, objEnd)

/-- The observable outcome of pulling from the `_items` generator a bounded
number of times: the pairs yielded so far, then either the caller stopped
pulling (`suspended`), the generator was exhausted (`done`), or a pull
raised (`error`). -/
inductive PullResult (α : Type) where
  | suspended (pairs : List (String × α))
  | done (pairs : List (String × α))
  | error (pairs : List (String × α)) (e : PyErr)
  deriving DecidableEq, Repr

namespace PullResult

/-- The pairs yielded before the scan stopped, for whatever reason. -/
def pairs : PullResult α → List (String × α)
  | .suspended ps => ps
  | .done ps => ps
  | .error ps _ => ps

/-- Record one more yielded pair in front of a later outcome. -/
def push (p : String × α) : PullResult α → PullResult α
  | .suspended ps => .suspended (p :: ps)
  | .done ps => .done (p :: ps)
  | .error ps e => .error (p :: ps) e

end PullResult

/-- The scan loop of `_items`: `while position < obj_end`, decode one element
at `position`, yield it and continue from the returned position.  `fuel`
bounds the number of elements the caller pulls; running out of fuel models
the caller ceasing to pull (`suspended`). -/
def scanLoop (dec : ElemDecoder α) (raw : Buffer) (opts : CodecOptions)
    (objSize objEnd : Int) (pos : Int) : Nat → PullResult α
  | 0 => .suspended []
  | fuel + 1 =>
    if pos < objEnd then
      match dec raw pos objSize opts with
      | .error e => .error [] e
      | .ok (name, value, pos') =>
        (scanLoop dec raw opts objSize objEnd pos' fuel).push (name, value)
    else .done []

/-- One scan of a buffer by the `_items` generator's lazy branch: perform the
header checks (these run on the first pull), then loop from offset 4. -/
def itemsScan (dec : ElemDecoder α) (raw : Buffer) (opts : CodecOptions)
    (fuel : Nat) : PullResult α :=
  match fuel with
  | 0 => .suspended []
  | _ + 1 =>
    match headerCheck raw with
    | .error e => .error [] e
    | .ok (objSize, objEnd) => scanLoop dec raw opts objSize objEnd 4 fuel

/-- The state of a `RawBSONDocument` view: the raw buffer (`self.__raw`), the
codec-options snapshot, and the nullable inflated cache
(`self.__inflated_doc`, a `dict` modelled as an insertion-ordered
association list).  `inflated_doc = none` is the Lazy state, `some m` the
Materialized state. -/
structure RawBSONDocument (α : Type) where
  raw : Buffer
  codec_options : CodecOptions
  inflated_doc : Option (List (String × α))
  deriving Repr

/-- `RawBSONDocument.__init__`: store the bytes unchanged, snapshot the two
codec settings, leave the cache unset.  No validation, no decoding. -/
def RawBSONDocument.make (bson_bytes : Buffer) (codec_options : CodecOptions) :
    RawBSONDocument α :=
  { raw := bson_bytes
    codec_options :=
      { tz_aware := codec_options.tz_aware
        uuid_representation := codec_options.uuid_representation }
    inflated_doc := none }

/-- Python `dict` lookup on the insertion-ordered association list. -/
def lookupName (m : List (String × α)) (item : String) : Option α :=
  (m.find? (fun p => p.1 = item)).map (fun p => p.2)

/-- Python `dict` insertion `d[k] = v`: overwrite in place if the key is
present, else append. -/
def dictInsert (m : List (String × α)) (p : String × α) : List (String × α) :=
  if m.any (fun q => q.1 = p.1) then
    m.map (fun q => if q.1 = p.1 then (q.1, p.2) else q)
  else m ++ [p]

/-- Modelled from the spec: the external full-document decoder
(`BSON.decode(codec_options)`, §6 `decodeDocument`), whose implementation is
not part of this source file.  Per §4.1 and §3 it performs the same size and
terminator validation as the element scanner, decodes the elements in order,
and builds a plain mapping by standard mapping construction (later key
overwrites earlier).  Fuel `raw.length + 1` suffices for any single-element
decoder that advances the position. -/
def decodeDocument (dec : ElemDecoder α) (raw : Buffer) (opts : CodecOptions) :
    Except PyErr (List (String × α)) :=
  match itemsScan dec raw opts (raw.length + 1) with
  | .done ps => .ok (ps.foldl dictInsert [])
  | .error _ e => .error e
  | .suspended _ => .error (.invalidBSON "nonterminating scan")

/-- The `__inflated` property: return the cache if set, otherwise run the
full external decode and, only if it succeeds, store the result in the cache.
Returns the mapping (or the propagated error) and the post-state. -/
def inflatedRun (dec : ElemDecoder α) (doc : RawBSONDocument α) :
    Except PyErr (List (String × α)) × RawBSONDocument α :=
  match doc.inflated_doc with
  | some m => (.ok m, doc)
  | none =>
    match decodeDocument dec doc.raw doc.codec_options with
    | .ok m => (.ok m, { doc with inflated_doc := some m })
    | .error e => (.error e, doc)

/-- `_items()` pulled at most `fuel` times.  If the cache is set, iterate it;
otherwise run the generator's lazy branch (checks, then the scan loop).
Pulling zero times runs nothing at all (generator bodies are deferred).
`_items` never assigns to the cache, so the state is unchanged. -/
def itemsPull (dec : ElemDecoder α) (doc : RawBSONDocument α) (fuel : Nat) :
    PullResult α :=
  match doc.inflated_doc with
  | some m => if fuel < m.length then .suspended (m.take fuel) else .done m
  | none => itemsScan dec doc.raw doc.codec_options fuel

/-- The short-circuit search of `__hasitem__`'s lazy branch over the scan:
`some true` on the first name match, `some false` at exhaustion, `none` if
the caller's fuel ran out first. -/
def hasLoop (dec : ElemDecoder α) (raw : Buffer) (opts : CodecOptions)
    (objSize objEnd : Int) (item : String) (pos : Int) :
    Nat → Except PyErr (Option Bool)
  | 0 => .ok none
  | fuel + 1 =>
    if pos < objEnd then
      match dec raw pos objSize opts with
      | .error e => .error e
      | .ok (name, _, pos') =>
        if name = item then .ok (some true)
        else hasLoop dec raw opts objSize objEnd item pos' fuel
    else .ok (some false)

/-- `__hasitem__(item)`: consult the cache when set; otherwise iterate
`_items()` and return `True` on the first matching name, `False` if none
matches.  Neither branch assigns to the cache, so the state is unchanged. -/
def hasitem (dec : ElemDecoder α) (doc : RawBSONDocument α) (item : String)
    (fuel : Nat) : Except PyErr (Option Bool) × RawBSONDocument α :=
  match doc.inflated_doc with
  | some m => (.ok (some (lookupName m item).isSome), doc)
  | none =>
    match headerCheck doc.raw with
    | .error e => (.error e, doc)
    | .ok (objSize, objEnd) =>
      (hasLoop dec doc.raw doc.codec_options objSize objEnd item 4 fuel, doc)

/-- `__getitem__(item)`: `self.__inflated[item]` — force materialization,
then a `dict` lookup, raising `KeyError` when the key is absent. -/
def getitem (dec : ElemDecoder α) (doc : RawBSONDocument α) (item : String) :
    Except PyErr α × RawBSONDocument α :=
  match inflatedRun dec doc with
  | (.ok m, d) =>
    match lookupName m item with
    | some v => (.ok v, d)
    | none => (.error (.keyError item), d)
  | (.error e, d) => (.error e, d)

/-- Membership (`item in doc`): `RawBSONDocument` subclasses
`collections.Mapping` and defines no `__contains__` (the method on the class
is spelled `__hasitem__`, which is not a protocol hook), so the `in`
operator resolves to `Mapping.__contains__`: call `__getitem__`, map
`KeyError` to `False`, anything else to `True`, and propagate other
exceptions. -/
def contains (dec : ElemDecoder α) (doc : RawBSONDocument α) (item : String) :
    Except PyErr Bool × RawBSONDocument α :=
  match getitem dec doc item with
  | (.ok _, d) => (.ok true, d)
  | (.error (.keyError _), d) => (.ok false, d)
  | (.error e, d) => (.error e, d)

/-- `__iter__`: `iter(self.__inflated)` — force materialization and yield the
keys in stored order. -/
def iterRun (dec : ElemDecoder α) (doc : RawBSONDocument α) :
    Except PyErr (List String) × RawBSONDocument α :=
  match inflatedRun dec doc with
  | (.ok m, d) => (.ok (m.map (fun p => p.1)), d)
  | (.error e, d) => (.error e, d)

/-- `__len__`: `len(self.__inflated)` — force materialization and count the
entries of the cached mapping. -/
def lenRun (dec : ElemDecoder α) (doc : RawBSONDocument α) :
    Except PyErr Nat × RawBSONDocument α :=
  match inflatedRun dec doc with
  | (.ok m, d) => (.ok m.length, d)
  | (.error e, d) => (.error e, d)

/-- `__cmp__(other)`: `cmp(self.__inflated, other)` — force materialization
and hand the inflated mapping to the external builtin `cmp`, passed here as
a parameter. -/
def cmpRun (dec : ElemDecoder α) (cmpFn : List (String × α) → β → Int)
    (doc : RawBSONDocument α) (other : β) :
    Except PyErr Int × RawBSONDocument α :=
  match inflatedRun dec doc with
  | (.ok m, d) => (.ok (cmpFn m other), d)
  | (.error e, d) => (.error e, d)

/-- `__repr__`: `repr(self.__inflated)` — force materialization; the string
formatting is external, so the inflated mapping itself is returned. -/
def reprRun (dec : ElemDecoder α) (doc : RawBSONDocument α) :
    Except PyErr (List (String × α)) × RawBSONDocument α :=
  match inflatedRun dec doc with
  | (.ok m, d) => (.ok m, d)
  | (.error e, d) => (.error e, d)

/-- The `raw` property: return the stored buffer, no decode, no state
change. -/
def rawRun (doc : RawBSONDocument α) : Buffer × RawBSONDocument α :=
  (doc.raw, doc)

/-- One operation of the view's public surface, for stating properties that
quantify over "any operation" (the state machine of §4.2). -/
inductive Op (α β : Type) where
  | opGetitem (item : String)
  | opContains (item : String)
  | opHasitem (item : String) (fuel : Nat)
  | opItemsPull (fuel : Nat)
  | opIter
  | opLen
  | opCmp (cmpFn : List (String × α) → β → Int) (other : β)
  | opRepr
  | opRaw

/-- The post-state of the view after running one operation. -/
def step (dec : ElemDecoder α) (op : Op α β) (doc : RawBSONDocument α) :
    RawBSONDocument α :=
  match op with
  | .opGetitem item => (getitem dec doc item).2
  | .opContains item => (contains dec doc item).2
  | .opHasitem item fuel => (hasitem dec doc item fuel).2
  | .opItemsPull _ => doc
  | .opIter => (iterRun dec doc).2
  | .opLen => (lenRun dec doc).2
  | .opCmp cmpFn other => (cmpRun dec cmpFn doc other).2
  | .opRepr => (reprRun dec doc).2
  | .opRaw => (rawRun doc).2

/-! ## Test fixtures: a concrete element decoder and concrete documents -/

/-- A concrete single-element decoder for concrete test documents, honouring
the §6 contract: an element is two bytes `[nameByte, valueByte]` starting at
`pos`; the name is the one-character string of `nameByte`, the value the
second byte; the returned position is just past the element and the decoder
never reads past `limit`. -/
def testDec : ElemDecoder Nat := fun raw pos limit _ =>
  if 0 ≤ pos ∧ pos + 2 ≤ limit then
    match raw.drop pos.toNat with
    | b0 :: b1 :: _ => .ok (String.mk [Char.ofNat b0], b1, pos + 2)
    | _ => .error (.invalidBSON "truncated")
  else .error (.invalidBSON "truncated")

/-- Default codec options for concrete tests. -/
def opts0 : CodecOptions := ⟨false, 0⟩

/-- The empty document: declared size 5, no elements, zero terminator. -/
def emptyDocBytes : Buffer := [5, 0, 0, 0, 0]

/-- A document with two `testDec` elements carrying the same name `"a"`
(values 1 and 2): declared size 9, terminator at offset 8. -/
def dupKeyBytes : Buffer := [9, 0, 0, 0, 97, 1, 97, 2, 0]

/-- A buffer whose first 4 bytes decode to the negative declared size `-5`;
its length is 10 and the byte the terminator check lands on (offset 4, via
Python negative-index slicing) is zero. -/
def negSizeBytes : Buffer := [251, 255, 255, 255, 0, 0, 0, 0, 0, 0]

/-! ## Lemmas about the scan loop and the generator -/

theorem PullResult.pairs_push (p : String × α) (r : PullResult α) :
    (r.push p).pairs = p :: r.pairs := by
  cases r <;> rfl

theorem scanLoop_succ_stop {dec : ElemDecoder α} {raw opts s e pos} {f : Nat}
    (hpos : ¬pos < e) : scanLoop dec raw opts s e pos (f + 1) = .done [] := by
  rw [scanLoop, if_neg hpos]

theorem scanLoop_succ_err {dec : ElemDecoder α} {raw opts s e pos err} {f : Nat}
    (hpos : pos < e) (hdec : dec raw pos s opts = .error err) :
    scanLoop dec raw opts s e pos (f + 1) = .error [] err := by
  rw [scanLoop, if_pos hpos, hdec]

theorem scanLoop_succ_ok {dec : ElemDecoder α} {raw opts s e pos name value pos'}
    {f : Nat} (hpos : pos < e) (hdec : dec raw pos s opts = .ok (name, value, pos')) :
    scanLoop dec raw opts s e pos (f + 1) =
      (scanLoop dec raw opts s e pos' f).push (name, value) := by
  rw [scanLoop, if_pos hpos, hdec]

theorem scanLoop_done_min {dec : ElemDecoder α} {raw opts s e} :
    ∀ {fuel : Nat} {pos : Int} {ps : List (String × α)},
      scanLoop dec raw opts s e pos fuel = .done ps →
      scanLoop dec raw opts s e pos (ps.length + 1) = .done ps := by
  intro fuel
  induction fuel with
  | zero => intro pos ps h; simp [scanLoop] at h
  | succ f ih =>
    intro pos ps h
    by_cases hpos : pos < e
    · cases hdec : dec raw pos s opts with
      | error err => rw [scanLoop_succ_err hpos hdec] at h; exact absurd h (by simp)
      | ok r =>
        obtain ⟨name, value, pos'⟩ := r
        rw [scanLoop_succ_ok hpos hdec] at h
        cases hrec : scanLoop dec raw opts s e pos' f with
        | suspended ps' => rw [hrec] at h; exact absurd h (by simp [PullResult.push])
        | error ps' err => rw [hrec] at h; exact absurd h (by simp [PullResult.push])
        | done ps' =>
          rw [hrec] at h
          simp only [PullResult.push] at h
          obtain ⟨rfl⟩ := PullResult.done.inj h
          rw [List.length_cons, scanLoop_succ_ok hpos hdec, ih hrec]
          rfl
    · rw [scanLoop_succ_stop hpos] at h
      obtain ⟨rfl⟩ := PullResult.done.inj h
      rw [List.length_nil, scanLoop_succ_stop hpos]

theorem scanLoop_done_of_le {dec : ElemDecoder α} {raw opts s e} :
    ∀ {fuel : Nat} {pos : Int} {ps : List (String × α)} {fuel' : Nat},
      scanLoop dec raw opts s e pos fuel = .done ps → fuel ≤ fuel' →
      scanLoop dec raw opts s e pos fuel' = .done ps := by
  intro fuel
  induction fuel with
  | zero => intro pos ps f' h; simp [scanLoop] at h
  | succ f ih =>
    intro pos ps f' h hle
    obtain ⟨f'', rfl⟩ : ∃ k, f' = k + 1 := ⟨f' - 1, by omega⟩
    by_cases hpos : pos < e
    · cases hdec : dec raw pos s opts with
      | error err => rw [scanLoop_succ_err hpos hdec] at h; exact absurd h (by simp)
      | ok r =>
        obtain ⟨name, value, pos'⟩ := r
        rw [scanLoop_succ_ok hpos hdec] at h ⊢
        cases hrec : scanLoop dec raw opts s e pos' f with
        | suspended ps' => rw [hrec] at h; exact absurd h (by simp [PullResult.push])
        | error ps' err => rw [hrec] at h; exact absurd h (by simp [PullResult.push])
        | done ps' =>
          rw [hrec] at h
          rw [ih hrec (by omega : f ≤ f'')]
          exact h
    · rw [scanLoop_succ_stop hpos] at h ⊢
      exact h

theorem scanLoop_pairs_take {dec : ElemDecoder α} {raw opts s e} :
    ∀ {n : Nat} {pos : Int} {fuel : Nat},
      n ≤ (scanLoop dec raw opts s e pos fuel).pairs.length →
      scanLoop dec raw opts s e pos n =
        .suspended ((scanLoop dec raw opts s e pos fuel).pairs.take n) := by
  intro n
  induction n with
  | zero => intro pos fuel _; rw [List.take_zero]; rfl
  | succ n ih =>
    intro pos fuel h
    match fuel with
    | 0 => simp [scanLoop, PullResult.pairs] at h
    | f + 1 =>
      by_cases hpos : pos < e
      · cases hdec : dec raw pos s opts with
        | error err =>
          rw [scanLoop_succ_err hpos hdec] at h
          simp [PullResult.pairs] at h
        | ok r =>
          obtain ⟨name, value, pos'⟩ := r
          have hr : (scanLoop dec raw opts s e pos (f + 1)).pairs =
              (name, value) :: (scanLoop dec raw opts s e pos' f).pairs := by
            rw [scanLoop_succ_ok hpos hdec, PullResult.pairs_push]
          rw [hr] at h ⊢
          rw [List.length_cons, Nat.succ_le_succ_iff] at h
          rw [List.take_succ_cons, scanLoop_succ_ok hpos hdec, ih h]
          rfl
      · rw [scanLoop_succ_stop hpos] at h
        simp [PullResult.pairs] at h

theorem scanLoop_done_length_le {dec : ElemDecoder α} {raw opts s e}
    (hadv : ∀ pos r, dec raw pos s opts = .ok r → pos < r.2.2) :
    ∀ {fuel : Nat} {pos : Int} {ps : List (String × α)},
      scanLoop dec raw opts s e pos fuel = .done ps →
      (ps.length : Int) ≤ max 0 (e - pos) := by
  intro fuel
  induction fuel with
  | zero => intro pos ps h; simp [scanLoop] at h
  | succ f ih =>
    intro pos ps h
    by_cases hpos : pos < e
    · cases hdec : dec raw pos s opts with
      | error err => rw [scanLoop_succ_err hpos hdec] at h; exact absurd h (by simp)
      | ok r =>
        obtain ⟨name, value, pos'⟩ := r
        rw [scanLoop_succ_ok hpos hdec] at h
        cases hrec : scanLoop dec raw opts s e pos' f with
        | suspended ps' => rw [hrec] at h; exact absurd h (by simp [PullResult.push])
        | error ps' err => rw [hrec] at h; exact absurd h (by simp [PullResult.push])
        | done ps' =>
          rw [hrec] at h
          simp only [PullResult.push] at h
          obtain ⟨rfl⟩ := PullResult.done.inj h
          have hlt : pos < pos' := hadv pos (name, value, pos') hdec
          have := ih hrec
          rw [List.length_cons]
          push_cast
          omega
    · rw [scanLoop_succ_stop hpos] at h
      obtain ⟨rfl⟩ := PullResult.done.inj h
      simp

theorem scanLoop_error_from_dec {dec : ElemDecoder α} {raw opts s e} :
    ∀ {fuel : Nat} {pos : Int} {ps : List (String × α)} {err : PyErr},
      scanLoop dec raw opts s e pos fuel = .error ps err →
      ∃ p, dec raw p s opts = .error err := by
  intro fuel
  induction fuel with
  | zero => intro pos ps err h; simp [scanLoop] at h
  | succ f ih =>
    intro pos ps err h
    by_cases hpos : pos < e
    · cases hdec : dec raw pos s opts with
      | error err' =>
        rw [scanLoop_succ_err hpos hdec] at h
        obtain ⟨-, rfl⟩ := PullResult.error.inj h
        exact ⟨pos, hdec⟩
      | ok r =>
        obtain ⟨name, value, pos'⟩ := r
        rw [scanLoop_succ_ok hpos hdec] at h
        cases hrec : scanLoop dec raw opts s e pos' f with
        | suspended ps' => rw [hrec] at h; exact absurd h (by simp [PullResult.push])
        | done ps' => rw [hrec] at h; exact absurd h (by simp [PullResult.push])
        | error ps' err' =>
          rw [hrec] at h
          simp only [PullResult.push] at h
          obtain ⟨-, rfl⟩ := PullResult.error.inj h
          exact ih hrec
    · rw [scanLoop_succ_stop hpos] at h
      exact absurd h (by simp)

theorem foldl_dictInsert_of_nodup :
    ∀ (ps m : List (String × α)), (ps.map Prod.fst).Nodup →
      (∀ p ∈ ps, ∀ q ∈ m, q.1 ≠ p.1) →
      ps.foldl dictInsert m = m ++ ps := by
  intro ps
  induction ps with
  | nil => intro m _ _; simp
  | cons p rest ih =>
    intro m hnd hdisj
    rw [List.map_cons, List.nodup_cons] at hnd
    have hins : dictInsert m p = m ++ [p] := by
      rw [dictInsert, if_neg]
      simp only [List.any_eq_true, decide_eq_true_eq, not_exists, not_and]
      intro q hq hc
      exact hdisj p (List.mem_cons_self p rest) q hq hc
    rw [List.foldl_cons, hins, ih (m ++ [p]) hnd.2]
    · simp
    · intro r hr q hq
      rcases List.mem_append.mp hq with hq | hq
      · exact hdisj r (List.mem_cons_of_mem p hr) q hq
      · rw [List.mem_singleton.mp hq]
        intro hc
        exact hnd.1 (hc ▸ List.mem_map_of_mem Prod.fst hr)

theorem pySlice_single {l : Buffer} {s : Int} (h1 : 1 ≤ s)
    (h2 : s ≤ (l.length : Int)) :
    pySlice l (s - 1) s = (l[(s - 1).toNat]?).toList := by
  have hb1 : pyBound l.length (s - 1) = (s - 1).toNat := by
    rw [pyBound, if_neg (by omega)]
    omega
  have hb2 : pyBound l.length s = s.toNat := by
    rw [pyBound, if_neg (by omega)]
    omega
  have hst : s.toNat = (s - 1).toNat + 1 := by omega
  have hlen : (l.take (s - 1).toNat).length = (s - 1).toNat := by
    rw [List.length_take]
    omega
  rw [pySlice, hb1, hb2, hst, List.take_succ, List.drop_left' hlen]

theorem inflatedRun_cached {dec : ElemDecoder α} {doc : RawBSONDocument α}
    {m : List (String × α)} (h : doc.inflated_doc = some m) :
    inflatedRun dec doc = (.ok m, doc) := by
  rw [inflatedRun, h]

theorem inflatedRun_lazy_ok {dec : ElemDecoder α} {doc : RawBSONDocument α}
    {m : List (String × α)} (h : doc.inflated_doc = none)
    (hd : decodeDocument dec doc.raw doc.codec_options = .ok m) :
    inflatedRun dec doc = (.ok m, { doc with inflated_doc := some m }) := by
  rw [inflatedRun, h, hd]

theorem inflatedRun_lazy_err {dec : ElemDecoder α} {doc : RawBSONDocument α}
    {err : PyErr} (h : doc.inflated_doc = none)
    (hd : decodeDocument dec doc.raw doc.codec_options = .error err) :
    inflatedRun dec doc = (.error err, doc) := by
  rw [inflatedRun, h, hd]

theorem itemsScan_succ_err {dec : ElemDecoder α} {raw opts err} {f : Nat}
    (h : headerCheck raw = .error err) :
    itemsScan dec raw opts (f + 1) = .error [] err := by
  rw [itemsScan, h]

theorem itemsScan_succ_ok {dec : ElemDecoder α} {raw opts s e} {f : Nat}
    (h : headerCheck raw = .ok (s, e)) :
    itemsScan dec raw opts (f + 1) = scanLoop dec raw opts s e 4 (f + 1) := by
  rw [itemsScan, h]

theorem itemsPull_lazy {dec : ElemDecoder α} {doc : RawBSONDocument α} {fuel : Nat}
    (h : doc.inflated_doc = none) :
    itemsPull dec doc fuel = itemsScan dec doc.raw doc.codec_options fuel := by
  rw [itemsPull, h]

theorem headerCheck_size_fail {raw : Buffer} {s : Int}
    (hu : unpackInt raw = some s) (hgt : (raw.length : Int) < s) :
    headerCheck raw = .error (.invalidBSON "invalid object size") := by
  rw [headerCheck, hu]
  simp only [if_pos hgt]

theorem headerCheck_struct_fail {raw : Buffer} (hu : unpackInt raw = none) :
    headerCheck raw = .error .structError := by
  rw [headerCheck, hu]

theorem headerCheck_eoo_fail {raw : Buffer} {s : Int}
    (hu : unpackInt raw = some s) (hle : ¬(raw.length : Int) < s)
    (heoo : pySlice raw (s - 1) s ≠ [0]) :
    headerCheck raw = .error (.invalidBSON "bad eoo") := by
  rw [headerCheck, hu]
  simp only [if_neg hle, if_pos heoo]

theorem headerCheck_pass {raw : Buffer} {s : Int}
    (hu : unpackInt raw = some s) (hle : ¬(raw.length : Int) < s)
    (heoo : pySlice raw (s - 1) s = [0]) :
    headerCheck raw = .ok (s, s - 1) := by
  rw [headerCheck, hu]
  simp only [if_neg hle, heoo]
  rfl

theorem headerCheck_size_fail_inv {raw : Buffer}
    (h : headerCheck raw = .error (.invalidBSON "invalid object size")) :
    ∃ s, unpackInt raw = some s ∧ (raw.length : Int) < s := by
  cases hu : unpackInt raw with
  | none =>
    rw [headerCheck_struct_fail hu] at h
    exact absurd (Except.error.inj h) (by decide)
  | some s =>
    by_cases hgt : (raw.length : Int) < s
    · exact ⟨s, rfl, hgt⟩
    · by_cases heoo : pySlice raw (s - 1) s ≠ [0]
      · rw [headerCheck_eoo_fail hu hgt heoo] at h
        exact absurd (PyErr.invalidBSON.inj (Except.error.inj h)) (by decide)
      · rw [headerCheck_pass hu hgt (not_not.mp heoo)] at h
        exact absurd h (by simp)

theorem inflatedRun_state (dec : ElemDecoder α) (d : RawBSONDocument α) :
    (inflatedRun dec d).2.raw = d.raw ∧
    (inflatedRun dec d).2.codec_options = d.codec_options ∧
    ((inflatedRun dec d).2.inflated_doc = d.inflated_doc ∨
      (d.inflated_doc = none ∧
        ∃ m, decodeDocument dec d.raw d.codec_options = .ok m ∧
          (inflatedRun dec d).2.inflated_doc = some m)) := by
  cases hh : d.inflated_doc with
  | some m => rw [inflatedRun_cached hh]; exact ⟨rfl, rfl, .inl hh⟩
  | none =>
    cases hd : decodeDocument dec d.raw d.codec_options with
    | ok m => rw [inflatedRun_lazy_ok hh hd]; exact ⟨rfl, rfl, .inr ⟨rfl, m, rfl, rfl⟩⟩
    | error e => rw [inflatedRun_lazy_err hh hd]; exact ⟨rfl, rfl, .inl hh⟩

theorem getitem_snd (dec : ElemDecoder α) (d : RawBSONDocument α) (item : String) :
    (getitem dec d item).2 = (inflatedRun dec d).2 := by
  rcases hr : inflatedRun dec d with ⟨r, d'⟩
  cases r with
  | ok m =>
    cases hl : lookupName m item with
    | some v => simp [getitem, hr, hl]
    | none => simp [getitem, hr, hl]
  | error e => simp [getitem, hr]

theorem contains_snd (dec : ElemDecoder α) (d : RawBSONDocument α) (item : String) :
    (contains dec d item).2 = (inflatedRun dec d).2 := by
  rw [← getitem_snd dec d item]
  rcases hg : getitem dec d item with ⟨r, d'⟩
  cases r with
  | ok v => simp [contains, hg]
  | error e => cases e <;> simp [contains, hg]

theorem hasitem_snd (dec : ElemDecoder α) (d : RawBSONDocument α) (item : String)
    (fuel : Nat) : (hasitem dec d item fuel).2 = d := by
  cases hh : d.inflated_doc with
  | some m => simp [hasitem, hh]
  | none =>
    cases hc : headerCheck d.raw with
    | error e => simp [hasitem, hh, hc]
    | ok se => rcases se with ⟨os, oe⟩; simp [hasitem, hh, hc]

theorem iterRun_snd (dec : ElemDecoder α) (d : RawBSONDocument α) :
    (iterRun dec d).2 = (inflatedRun dec d).2 := by
  rcases hr : inflatedRun dec d with ⟨r, d'⟩
  cases r with
  | ok m => simp [iterRun, hr]
  | error e => simp [iterRun, hr]

theorem lenRun_snd (dec : ElemDecoder α) (d : RawBSONDocument α) :
    (lenRun dec d).2 = (inflatedRun dec d).2 := by
  rcases hr : inflatedRun dec d with ⟨r, d'⟩
  cases r with
  | ok m => simp [lenRun, hr]
  | error e => simp [lenRun, hr]

theorem cmpRun_snd (dec : ElemDecoder α) (cmpFn : List (String × α) → β → Int)
    (d : RawBSONDocument α) (other : β) :
    (cmpRun dec cmpFn d other).2 = (inflatedRun dec d).2 := by
  rcases hr : inflatedRun dec d with ⟨r, d'⟩
  cases r with
  | ok m => simp [cmpRun, hr]
  | error e => simp [cmpRun, hr]

theorem reprRun_snd (dec : ElemDecoder α) (d : RawBSONDocument α) :
    (reprRun dec d).2 = (inflatedRun dec d).2 := by
  rcases hr : inflatedRun dec d with ⟨r, d'⟩
  cases r with
  | ok m => simp [reprRun, hr]
  | error e => simp [reprRun, hr]

theorem step_state (dec : ElemDecoder α) (op : Op α β) (d : RawBSONDocument α) :
    (step dec op d).raw = d.raw ∧
    (step dec op d).codec_options = d.codec_options ∧
    ((step dec op d).inflated_doc = d.inflated_doc ∨
      (d.inflated_doc = none ∧
        ∃ m, decodeDocument dec d.raw d.codec_options = .ok m ∧
          (step dec op d).inflated_doc = some m)) := by
  cases op with
  | opGetitem item => rw [step, getitem_snd]; exact inflatedRun_state dec d
  | opContains item => rw [step, contains_snd]; exact inflatedRun_state dec d
  | opHasitem item fuel => rw [step, hasitem_snd]; exact ⟨rfl, rfl, .inl rfl⟩
  | opItemsPull fuel => rw [step]; exact ⟨rfl, rfl, .inl rfl⟩
  | opIter => rw [step, iterRun_snd]; exact inflatedRun_state dec d
  | opLen => rw [step, lenRun_snd]; exact inflatedRun_state dec d
  | opCmp cmpFn other => rw [step, cmpRun_snd]; exact inflatedRun_state dec d
  | opRepr => rw [step, reprRun_snd]; exact inflatedRun_state dec d
  | opRaw => rw [step]; exact ⟨rfl, rfl, .inl rfl⟩

/-- `testDec` honours the advancement implied by the §6 contract (the
returned offset is just past the decoded element). -/
theorem testDec_advances {raw : Buffer} {pos limit : Int} {o : CodecOptions}
    {r : String × Nat × Int} (h : testDec raw pos limit o = .ok r) :
    pos < r.2.2 := by
  rw [testDec] at h
  by_cases hc : 0 ≤ pos ∧ pos + 2 ≤ limit
  · rw [if_pos hc] at h
    match hd : raw.drop pos.toNat with
    | [] => rw [hd] at h; exact absurd h (by simp)
    | [b0] => rw [hd] at h; exact absurd h (by simp)
    | b0 :: b1 :: tl =>
      simp only [hd] at h
      obtain rfl := Except.ok.inj h
      show pos < pos + 2
      omega
  · rw [if_neg hc] at h
    exact absurd h (by simp)

/-- The only error `testDec` ever raises is its own "truncated" error. -/
theorem testDec_err_msg {raw : Buffer} {pos limit : Int} {o : CodecOptions}
    {err : PyErr} (h : testDec raw pos limit o = .error err) :
    err = .invalidBSON "truncated" := by
  rw [testDec] at h
  by_cases hc : 0 ≤ pos ∧ pos + 2 ≤ limit
  · rw [if_pos hc] at h
    match hd : raw.drop pos.toNat with
    | [] => simp only [hd] at h; exact (Except.error.inj h).symm
    | [b0] => simp only [hd] at h; exact (Except.error.inj h).symm
    | b0 :: b1 :: tl => simp only [hd] at h; exact absurd h (by simp)
  · rw [if_neg hc] at h
    exact (Except.error.inj h).symm

/-- A decoder that fails on every element starting at offset 6 or later,
used to exercise early termination ahead of an invalid element. -/
def testDecErr : ElemDecoder Nat := fun raw pos limit o =>
  if 6 ≤ pos then .error (.invalidBSON "boom") else testDec raw pos limit o

/-- A document with two `testDec` elements with distinct names
`"a"` and `"b"` (values 1 and 2). -/
def twoKeyBytes : Buffer := [9, 0, 0, 0, 97, 1, 98, 2, 0]

/-- A buffer whose declared size exceeds its actual length. -/
def oversizeBytes : Buffer := [10, 0, 0, 0, 0]

/-- A well-sized buffer whose terminator byte (at offset 4) is not zero. -/
def badEooBytes : Buffer := [5, 0, 0, 0, 1]

/-! ## The claims -/

/-- C1 (code bug): on a Lazy view over the well-formed empty document, the
membership operation (the `in` operator, resolving through
`collections.Mapping.__contains__` because the class spells its hook
`__hasitem__`) calls `__getitem__`, fully materializes the cache and leaves
the view Materialized — contradicting the claim that membership walks the
scanner and leaves the view Lazy.  The dead `__hasitem__` method itself does
behave as the claim describes: it walks the scanner and leaves the state
unchanged. -/
theorem C1_contains_via_mapping_materializes :
    (RawBSONDocument.make emptyDocBytes opts0 : RawBSONDocument Nat).inflated_doc
        = none ∧
    contains testDec (RawBSONDocument.make emptyDocBytes opts0) "a" =
      (.ok false,
        { raw := emptyDocBytes, codec_options := opts0, inflated_doc := some [] }) ∧
    hasitem testDec (RawBSONDocument.make emptyDocBytes opts0) "a" 1 =
      (.ok (some false), RawBSONDocument.make emptyDocBytes opts0) :=
  ⟨rfl, rfl, rfl⟩

/-- C3: the declared-size check.  On a Lazy view, if the first 4 bytes decode
to `s` strictly greater than the buffer length, the element scan, the
`__hasitem__` walk and any materialization raise `InvalidBSON("invalid
object size")` before yielding any element; conversely (for a decoder that
never raises that error itself) the scan raises it only when the declared
size exceeds the buffer length; and construction stores the bytes unchanged
with the cache unset, without any validation. -/
theorem C3_invalid_object_size {α : Type} (dec : ElemDecoder α)
    (doc : RawBSONDocument α) (item : String) (n : Nat)
    (hlazy : doc.inflated_doc = none)
    (hdec : ∀ pos limit o, dec doc.raw pos limit o ≠
      .error (.invalidBSON "invalid object size"))
    (hn : 1 ≤ n) :
    (∀ s : Int, unpackInt doc.raw = some s → (doc.raw.length : Int) < s →
      itemsPull dec doc n = .error [] (.invalidBSON "invalid object size") ∧
      hasitem dec doc item n =
        (.error (.invalidBSON "invalid object size"), doc) ∧
      inflatedRun dec doc =
        (.error (.invalidBSON "invalid object size"), doc)) ∧
    (∀ ps, itemsPull dec doc n = .error ps (.invalidBSON "invalid object size") →
      ∃ s, unpackInt doc.raw = some s ∧ (doc.raw.length : Int) < s) ∧
    (∀ (bytes : Buffer) (opts : CodecOptions),
      (RawBSONDocument.make bytes opts : RawBSONDocument α).raw = bytes ∧
      (RawBSONDocument.make bytes opts : RawBSONDocument α).inflated_doc = none) := by
  obtain ⟨k, rfl⟩ : ∃ k, n = k + 1 := ⟨n - 1, by omega⟩
  refine ⟨?_, ?_, fun bytes opts => ⟨rfl, rfl⟩⟩
  · intro s hu hgt
    have hh := headerCheck_size_fail hu hgt
    refine ⟨?_, ?_, ?_⟩
    · rw [itemsPull_lazy hlazy, itemsScan_succ_err hh]
    · simp [hasitem, hlazy, hh]
    · have hdd : decodeDocument dec doc.raw doc.codec_options =
          .error (.invalidBSON "invalid object size") := by
        rw [decodeDocument, itemsScan_succ_err hh]
      exact inflatedRun_lazy_err hlazy hdd
  · intro ps hp
    rw [itemsPull_lazy hlazy] at hp
    cases hh : headerCheck doc.raw with
    | error e2 =>
      rw [itemsScan_succ_err hh] at hp
      obtain ⟨-, rfl⟩ := PullResult.error.inj hp
      exact headerCheck_size_fail_inv hh
    | ok se =>
      rcases se with ⟨os, oe⟩
      rw [itemsScan_succ_ok hh] at hp
      obtain ⟨p, hpe⟩ := scanLoop_error_from_dec hp
      exact absurd hpe (hdec p os doc.codec_options)

/-- C4: the terminator check.  On a Lazy view whose declared size `s` passes
the size check and addresses an existing byte (`1 ≤ s ≤ length`), the scan
raises `InvalidBSON("bad eoo")` — the spec's `MalformedDocument` ("bad
terminator") — before yielding any element exactly when the byte at offset
`s - 1` is nonzero; when that byte is zero the header check succeeds and (for
a decoder that never raises "bad eoo" itself) the error is not raised. -/
theorem C4_bad_terminator {α : Type} (dec : ElemDecoder α)
    (doc : RawBSONDocument α) (n : Nat) (s : Int)
    (hlazy : doc.inflated_doc = none) (hn : 1 ≤ n)
    (hs : unpackInt doc.raw = some s)
    (hsize : ¬(doc.raw.length : Int) < s)
    (hs1 : 1 ≤ s) :
    (∀ b, doc.raw[(s - 1).toNat]? = some b → b ≠ 0 →
      itemsPull dec doc n = .error [] (.invalidBSON "bad eoo")) ∧
    (doc.raw[(s - 1).toNat]? = some 0 →
      headerCheck doc.raw = .ok (s, s - 1) ∧
      ((∀ pos limit o, dec doc.raw pos limit o ≠ .error (.invalidBSON "bad eoo")) →
        ∀ ps, itemsPull dec doc n ≠ .error ps (.invalidBSON "bad eoo"))) := by
  obtain ⟨k, rfl⟩ : ∃ k, n = k + 1 := ⟨n - 1, by omega⟩
  have hslice : pySlice doc.raw (s - 1) s = (doc.raw[(s - 1).toNat]?).toList :=
    pySlice_single hs1 (by omega)
  constructor
  · intro b hb hbne
    have heoo : pySlice doc.raw (s - 1) s ≠ [0] := by
      rw [hslice, hb]
      simp [hbne]
    have hh := headerCheck_eoo_fail hs hsize heoo
    rw [itemsPull_lazy hlazy, itemsScan_succ_err hh]
  · intro hb0
    have heoo : pySlice doc.raw (s - 1) s = [0] := by
      rw [hslice, hb0]
      rfl
    have hh := headerCheck_pass hs hsize heoo
    refine ⟨hh, ?_⟩
    intro hdec ps hp
    rw [itemsPull_lazy hlazy, itemsScan_succ_ok hh] at hp
    obtain ⟨p, hpe⟩ := scanLoop_error_from_dec hp
    exact absurd hpe (hdec p s doc.codec_options)

/-- C9: a buffer whose first 4 bytes decode to the negative declared size
`-5` passes the size check (only strictly larger sizes are rejected), passes
the terminator check through Python negative-index slicing (the slice lands
on the zero byte at offset 4), and the scan loop from offset 4 to the
negative end offset runs zero iterations: the scan raises nothing and yields
the empty sequence, for any element decoder. -/
theorem C9_negative_size_empty_scan {α : Type} (dec : ElemDecoder α)
    (opts : CodecOptions) (n : Nat) (hn : 1 ≤ n) :
    unpackInt negSizeBytes = some (-5) ∧
    headerCheck negSizeBytes = .ok (-5, -6) ∧
    itemsPull dec (RawBSONDocument.make negSizeBytes opts) n = .done [] := by
  obtain ⟨k, rfl⟩ : ∃ k, n = k + 1 := ⟨n - 1, by omega⟩
  refine ⟨rfl, rfl, ?_⟩
  rw [itemsPull_lazy rfl]
  show itemsScan dec negSizeBytes _ (k + 1) = PullResult.done []
  rw [itemsScan_succ_ok (show headerCheck negSizeBytes = .ok (-5, -6) from rfl)]
  exact scanLoop_succ_stop (by decide)

/-- C10: on a Lazy view over a buffer whose full decode succeeds with
mapping `m`, looking up a name absent from `m` raises `KeyError` — and the
failed lookup still materializes first: the view ends Materialized with the
full cache `m`. -/
theorem C10_missing_key_raises_and_materializes {α : Type} (dec : ElemDecoder α)
    (doc : RawBSONDocument α) (item : String) (m : List (String × α))
    (hlazy : doc.inflated_doc = none)
    (hd : decodeDocument dec doc.raw doc.codec_options = .ok m)
    (habs : lookupName m item = none) :
    getitem dec doc item =
      (.error (.keyError item), { doc with inflated_doc := some m }) ∧
    (getitem dec doc item).2.inflated_doc = some m := by
  have h1 : getitem dec doc item =
      (.error (.keyError item), { doc with inflated_doc := some m }) := by
    rw [getitem, inflatedRun_lazy_ok hlazy hd]
    simp [habs]
  exact ⟨h1, by rw [h1]⟩

/-- C6: when the full decode performed during materialization fails, the
error propagates, the cache field is still unset afterwards (no failure and
no partial mapping is cached), and a subsequent materialization attempt on
the resulting view runs the decode again from scratch with the same
outcome. -/
theorem C6_failed_materialization_stays_lazy {α : Type} (dec : ElemDecoder α)
    (doc : RawBSONDocument α) (err : PyErr)
    (hlazy : doc.inflated_doc = none)
    (hd : decodeDocument dec doc.raw doc.codec_options = .error err) :
    inflatedRun dec doc = (.error err, doc) ∧
    (inflatedRun dec doc).2.inflated_doc = none ∧
    inflatedRun dec (inflatedRun dec doc).2 = (.error err, doc) := by
  have h := inflatedRun_lazy_err hlazy hd
  exact ⟨h, by rw [h]; exact hlazy, by rw [h]; exact h⟩

theorem headerCheck_ok_inv {raw : Buffer} {os oe : Int}
    (h : headerCheck raw = .ok (os, oe)) :
    unpackInt raw = some os ∧ ¬((raw.length : Int) < os) ∧ oe = os - 1 := by
  cases hu : unpackInt raw with
  | none => rw [headerCheck_struct_fail hu] at h; exact absurd h (by simp)
  | some s =>
    by_cases hgt : (raw.length : Int) < s
    · rw [headerCheck_size_fail hu hgt] at h; exact absurd h (by simp)
    · by_cases heoo : pySlice raw (s - 1) s ≠ [0]
      · rw [headerCheck_eoo_fail hu hgt heoo] at h; exact absurd h (by simp)
      · rw [headerCheck_pass hu hgt (not_not.mp heoo)] at h
        obtain ⟨hs, he⟩ := Prod.mk.inj (Except.ok.inj h)
        subst hs
        exact ⟨rfl, hgt, he.symm⟩

theorem foldl_step_cache {α β : Type} (dec : ElemDecoder α)
    {doc : RawBSONDocument α} {m : List (String × α)}
    (hd : decodeDocument dec doc.raw doc.codec_options = .ok m) :
    ∀ (ops : List (Op α β)) (d : RawBSONDocument α),
      d.raw = doc.raw → d.codec_options = doc.codec_options →
      (d.inflated_doc = none ∨ d.inflated_doc = some m) →
      (ops.foldl (fun x op => step dec op x) d).raw = doc.raw ∧
      (ops.foldl (fun x op => step dec op x) d).codec_options =
        doc.codec_options ∧
      ((ops.foldl (fun x op => step dec op x) d).inflated_doc = none ∨
        (ops.foldl (fun x op => step dec op x) d).inflated_doc = some m) := by
  intro ops
  induction ops with
  | nil => intro d h1 h2 h3; exact ⟨h1, h2, h3⟩
  | cons op rest ih =>
    intro d h1 h2 h3
    rw [List.foldl_cons]
    obtain ⟨hr, hc, hcache⟩ := step_state dec op d
    refine ih (step dec op d) (hr.trans h1) (hc.trans h2) ?_
    cases hcache with
    | inl heq => rw [heq]; exact h3
    | inr hmat =>
      obtain ⟨-, m', hdm, hpost⟩ := hmat
      right
      rw [h1, h2] at hdm
      have hmm : m = m' := Except.ok.inj (hd.symm.trans hdm)
      rw [hpost, ← hmm]

/-- C5: on a Lazy view whose full decode yields `m`, every materializing
operation — item access, name iteration, length, comparison, repr — leaves
the cache equal to the same `m`; and after any sequence of operations the
cache is either still unset or equal to that same `m`, so the materialized
mapping (its key set and the value at each key) does not depend on which
operation triggered materialization or in what order operations ran. -/
theorem C5_materialization_consistent {α β : Type} (dec : ElemDecoder α)
    (doc : RawBSONDocument α) (m : List (String × α))
    (hlazy : doc.inflated_doc = none)
    (hd : decodeDocument dec doc.raw doc.codec_options = .ok m) :
    (∀ item, (getitem dec doc item).2.inflated_doc = some m) ∧
    (iterRun dec doc).2.inflated_doc = some m ∧
    (lenRun dec doc).2.inflated_doc = some m ∧
    (reprRun dec doc).2.inflated_doc = some m ∧
    (∀ (cmpFn : List (String × α) → β → Int) (other : β),
      (cmpRun dec cmpFn doc other).2.inflated_doc = some m) ∧
    (∀ ops : List (Op α β),
      (ops.foldl (fun d op => step dec op d) doc).inflated_doc = none ∨
      (ops.foldl (fun d op => step dec op d) doc).inflated_doc = some m) := by
  have hpost : (inflatedRun dec doc).2.inflated_doc = some m := by
    rw [inflatedRun_lazy_ok hlazy hd]
  exact ⟨fun item => by rw [getitem_snd]; exact hpost,
    by rw [iterRun_snd]; exact hpost,
    by rw [lenRun_snd]; exact hpost,
    by rw [reprRun_snd]; exact hpost,
    fun cmpFn other => by rw [cmpRun_snd]; exact hpost,
    fun ops => (foldl_step_cache dec hd ops doc rfl rfl (Or.inl hlazy)).2.2⟩

/-- C7: the view is always in exactly one of the two states Lazy (cache
unset) and Materialized (cache set); a set cache survives every operation
unchanged (Materialized is terminal and the cached mapping is never
replaced); and the only possible state change of any operation is the
transition from Lazy to Materialized with the full-decode result. -/
theorem C7_state_machine {α β : Type} (dec : ElemDecoder α) (op : Op α β)
    (d : RawBSONDocument α) :
    ((d.inflated_doc = none ∨ ∃ m, d.inflated_doc = some m) ∧
      ¬(d.inflated_doc = none ∧ ∃ m, d.inflated_doc = some m)) ∧
    (∀ m, d.inflated_doc = some m → (step dec op d).inflated_doc = some m) ∧
    ((step dec op d).inflated_doc ≠ d.inflated_doc →
      d.inflated_doc = none ∧
        ∃ m, decodeDocument dec d.raw d.codec_options = .ok m ∧
          (step dec op d).inflated_doc = some m) := by
  obtain ⟨hr, hc, hcache⟩ := step_state dec op d
  refine ⟨⟨?_, ?_⟩, ?_, ?_⟩
  · cases h : d.inflated_doc with
    | none => exact .inl rfl
    | some m => exact .inr ⟨m, rfl⟩
  · rintro ⟨h1, m, h2⟩
    rw [h1] at h2
    exact Option.noConfusion h2
  · intro m hm
    cases hcache with
    | inl heq => rw [heq, hm]
    | inr hmat => rw [hmat.1] at hm; exact absurd hm (by simp)
  · intro hne
    cases hcache with
    | inl heq => exact absurd heq hne
    | inr hmat => exact hmat

/-- C2 counterexample: a well-formed buffer with two elements that share the
name `"a"`.  A full element scan yields 2 pairs, but materialization builds
a mapping (later key overwrites earlier), so `length()` returns 1, not the
number of pairs produced by a full scan. -/
theorem C2_duplicate_names_counterexample :
    (RawBSONDocument.make dupKeyBytes opts0 : RawBSONDocument Nat).inflated_doc
        = none ∧
    itemsPull testDec (RawBSONDocument.make dupKeyBytes opts0) 3 =
      .done [("a", 1), ("a", 2)] ∧
    (lenRun testDec (RawBSONDocument.make dupKeyBytes opts0)).1 = .ok 1 ∧
    (1 : Nat) ≠ [(("a" : String), (1 : Nat)), ("a", 2)].length :=
  ⟨rfl, by decide, rfl, by decide⟩

/-- C2 (amended): for a Lazy view over a well-formed buffer whose fully
consumed element scan yields pairs with pairwise-distinct names, `length()`
equals the number of pairs of the full scan, and the materialized mapping is
exactly the scanned pair sequence. -/
theorem C2_length_eq_scan_count_of_distinct_names {α : Type}
    (dec : ElemDecoder α) (doc : RawBSONDocument α) (n : Nat)
    (ps : List (String × α))
    (hadv : ∀ pos limit o r, dec doc.raw pos limit o = .ok r → pos < r.2.2)
    (hlazy : doc.inflated_doc = none)
    (hscan : itemsPull dec doc n = .done ps)
    (hnodup : (ps.map Prod.fst).Nodup) :
    (lenRun dec doc).1 = .ok ps.length ∧
    decodeDocument dec doc.raw doc.codec_options = .ok ps := by
  rw [itemsPull_lazy hlazy] at hscan
  obtain ⟨k, rfl⟩ : ∃ k, n = k + 1 := by
    cases n with
    | zero => rw [itemsScan] at hscan; exact absurd hscan (by simp)
    | succ k => exact ⟨k, rfl⟩
  cases hh : headerCheck doc.raw with
  | error e =>
    rw [itemsScan_succ_err hh] at hscan
    exact absurd hscan (by simp)
  | ok se =>
    rcases se with ⟨os, oe⟩
    rw [itemsScan_succ_ok hh] at hscan
    obtain ⟨hu, hsize, rfl⟩ := headerCheck_ok_inv hh
    have hmin := scanLoop_done_min hscan
    have hadvs : ∀ pos r, dec doc.raw pos os doc.codec_options = .ok r →
        pos < r.2.2 := fun pos r h => hadv pos os doc.codec_options r h
    have hmax := scanLoop_done_length_le hadvs hscan
    have hps2 : ps.length ≤ doc.raw.length := by
      have h0 : (0 : Int) ≤ (doc.raw.length : Int) := Int.ofNat_nonneg _
      rcases max_cases (0 : Int) (os - 1 - 4) with ⟨heq, -⟩ | ⟨heq, -⟩ <;>
        rw [heq] at hmax <;> exact_mod_cast by omega
    have hdone : scanLoop dec doc.raw doc.codec_options os (os - 1) 4
        (doc.raw.length + 1) = .done ps :=
      scanLoop_done_of_le hmin (by omega)
    have hdd : decodeDocument dec doc.raw doc.codec_options =
        .ok (ps.foldl dictInsert []) := by
      rw [decodeDocument, itemsScan_succ_ok hh, hdone]
    have hfold : ps.foldl dictInsert [] = ps := by
      have := foldl_dictInsert_of_nodup ps [] hnodup
        (fun p _ q hq => absurd hq (List.not_mem_nil q))
      simpa using this
    rw [hfold] at hdd
    refine ⟨?_, hdd⟩
    rw [lenRun, inflatedRun_lazy_ok hlazy hdd]

/-- C8: pulling only the first `n` pairs from the `_items` generator of a
Lazy view yields exactly the first `n` scanned pairs and suspends — no
error is raised even when scanning further (here: `fuel` pulls) would reach
an invalid element — and the items operation leaves the view's state, in
particular its unset cache, untouched. -/
theorem C8_iterate_items_lazy {α β : Type} (dec : ElemDecoder α)
    (doc : RawBSONDocument α) (n fuel : Nat)
    (hlazy : doc.inflated_doc = none)
    (hn : n ≤ (itemsPull dec doc fuel).pairs.length) :
    itemsPull dec doc n = .suspended ((itemsPull dec doc fuel).pairs.take n) ∧
    ((itemsPull dec doc fuel).pairs.take n).length = n ∧
    step dec (Op.opItemsPull n : Op α β) doc = doc := by
  refine ⟨?_, by rw [List.length_take]; exact Nat.min_eq_left hn, rfl⟩
  simp only [itemsPull_lazy hlazy] at hn ⊢
  cases n with
  | zero => simp [itemsScan]
  | succ k =>
    match fuel with
    | 0 => simp [itemsScan, PullResult.pairs] at hn
    | f + 1 =>
      cases hh : headerCheck doc.raw with
      | error e =>
        rw [itemsScan_succ_err hh] at hn
        simp [PullResult.pairs] at hn
      | ok se =>
        rcases se with ⟨os, oe⟩
        rw [itemsScan_succ_ok hh] at hn ⊢
        rw [itemsScan_succ_ok hh]
        exact scanLoop_pairs_take hn

/-- Witness for C2's amended theorem: a two-element document with distinct
names "a" and "b"; the full scan yields 2 pairs and `length()` is 2. -/
theorem C2_length_eq_scan_count_witness :
    itemsPull testDec (RawBSONDocument.make twoKeyBytes opts0) 3 =
      .done [("a", 1), ("b", 2)] ∧
    (lenRun testDec (RawBSONDocument.make twoKeyBytes opts0)).1 = .ok 2 :=
  ⟨by decide, by
    have h := C2_length_eq_scan_count_of_distinct_names testDec
      (RawBSONDocument.make twoKeyBytes opts0) 3 [("a", 1), ("b", 2)]
      (fun _ _ _ _ hok => testDec_advances hok) rfl (by decide) (by decide)
    exact h.1⟩

/-- Witness for C3: a 5-byte buffer declaring size 10.  The first pull of
the element scan raises the size error before yielding anything. -/
theorem C3_invalid_object_size_witness :
    unpackInt oversizeBytes = some 10 ∧
    itemsPull testDec (RawBSONDocument.make oversizeBytes opts0) 1 =
      .error [] (.invalidBSON "invalid object size") :=
  ⟨rfl, by
    have h := C3_invalid_object_size testDec
      (RawBSONDocument.make oversizeBytes opts0) "a" 1 rfl
      (fun _ _ _ hco => absurd (testDec_err_msg hco) (by decide)) (by decide)
    exact (h.1 10 rfl (by decide)).1⟩

/-- Witness for C4: a well-sized 5-byte buffer whose terminator byte is 1.
The first pull raises the terminator error before yielding anything. -/
theorem C4_bad_terminator_witness :
    badEooBytes[(4 : Nat)]? = some 1 ∧
    itemsPull testDec (RawBSONDocument.make badEooBytes opts0) 1 =
      .error [] (.invalidBSON "bad eoo") :=
  ⟨rfl, by
    have h := C4_bad_terminator testDec (RawBSONDocument.make badEooBytes opts0)
      1 5 rfl (by decide) rfl (by decide) (by decide)
    exact h.1 1 rfl (by decide)⟩

/-- Witness for C5: materializing the two-element document via `length` or
via name iteration leaves the same cache. -/
theorem C5_materialization_consistent_witness :
    (lenRun testDec (RawBSONDocument.make twoKeyBytes opts0)).2.inflated_doc =
      some [("a", 1), ("b", 2)] ∧
    (iterRun testDec (RawBSONDocument.make twoKeyBytes opts0)).2.inflated_doc =
      some [("a", 1), ("b", 2)] :=
  ⟨(C5_materialization_consistent (β := Unit) testDec
      (RawBSONDocument.make twoKeyBytes opts0) [("a", 1), ("b", 2)]
      rfl rfl).2.2.1,
    (C5_materialization_consistent (β := Unit) testDec
      (RawBSONDocument.make twoKeyBytes opts0) [("a", 1), ("b", 2)]
      rfl rfl).2.1⟩

/-- Witness for C6: materializing the oversize buffer fails and leaves the
view Lazy. -/
theorem C6_failed_materialization_witness :
    inflatedRun testDec (RawBSONDocument.make oversizeBytes opts0) =
      (.error (.invalidBSON "invalid object size"),
        RawBSONDocument.make oversizeBytes opts0) ∧
    (inflatedRun testDec
      (RawBSONDocument.make oversizeBytes opts0)).2.inflated_doc = none :=
  ⟨(C6_failed_materialization_stays_lazy testDec
      (RawBSONDocument.make oversizeBytes opts0)
      (.invalidBSON "invalid object size") rfl rfl).1,
    (C6_failed_materialization_stays_lazy testDec
      (RawBSONDocument.make oversizeBytes opts0)
      (.invalidBSON "invalid object size") rfl rfl).2.1⟩

/-- Witness for C7: a set cache survives a `length` call unchanged. -/
theorem C7_state_machine_witness :
    (step testDec (Op.opLen : Op Nat Unit)
      { raw := emptyDocBytes, codec_options := opts0,
        inflated_doc := some [("a", 1)] }).inflated_doc = some [("a", 1)] :=
  (C7_state_machine testDec (Op.opLen : Op Nat Unit)
    { raw := emptyDocBytes, codec_options := opts0,
      inflated_doc := some [("a", 1)] }).2.1 [("a", 1)] rfl

/-- Witness for C8: under a decoder that fails on the second element, pulling
3 items errors after one pair, but pulling just 1 item suspends with that
pair and raises nothing. -/
theorem C8_iterate_items_lazy_witness :
    itemsPull testDecErr (RawBSONDocument.make twoKeyBytes opts0) 3 =
      .error [("a", 1)] (.invalidBSON "boom") ∧
    itemsPull testDecErr (RawBSONDocument.make twoKeyBytes opts0) 1 =
      .suspended [("a", 1)] :=
  ⟨by decide, by
    have h := C8_iterate_items_lazy (β := Unit) testDecErr
      (RawBSONDocument.make twoKeyBytes opts0) 1 3 rfl (by decide)
    exact h.1⟩

/-- Witness for C9: the negative-declared-size buffer at one pull. -/
theorem C9_negative_size_empty_scan_witness :
    1 ≤ 1 ∧
    itemsPull testDec (RawBSONDocument.make negSizeBytes opts0) 1 = .done [] :=
  ⟨by decide, (C9_negative_size_empty_scan testDec opts0 1 (by decide)).2.2⟩

/-- Witness for C10: looking up the absent name "b" in the empty document
raises `KeyError` and leaves the view Materialized with the empty cache. -/
theorem C10_missing_key_witness :
    getitem testDec (RawBSONDocument.make emptyDocBytes opts0) "b" =
      (.error (.keyError "b"),
        { raw := emptyDocBytes, codec_options := opts0,
          inflated_doc := some [] }) :=
  (C10_missing_key_raises_and_materializes testDec
    (RawBSONDocument.make emptyDocBytes opts0) "b" [] rfl rfl rfl).1

end RawBson
